import Mathlib

/-!
Verification development for a serial-to-shared-memory datagram logger.

The development shallowly embeds the two cores of the program. All machine
integers are embedded as Nat with explicit reduction modulo 2^64 wherever the
C source computes in a 64-bit unsigned type and the result could exceed the
word. Byte streams are embedded as List Nat whose elements range over byte
values. Blocking reads from a file descriptor are embedded by consuming a
finite list; exhaustion of the list models end of input or a read error,
which the decoder loop treats as failure (the C code returns -1 or loops).
-/

namespace CobsToShm

/-! ## Byte-stuffed frame decoder, from read_escaped_frame in cobs_to_shm.c -/

/-- The discard loop of the decoder restart path: do read; while (code);
consumes bytes through the first zero byte and yields the remainder of the
source, or none when the source is exhausted first. -/
def discard_until_zero : List Nat → Option (List Nat)
  | [] => none
  | b :: rest => if b = 0 then some rest else discard_until_zero rest

/-- One-to-one embedding of the decoder loop of read_escaped_frame.
acc is the list of bytes written to the output buffer so far (dst - plain),
src the unread source bytes.  The fuel argument makes the recursion
structural; every iteration of the C loop consumes at least one source byte,
so fuel equal to the source length is always sufficient.  A count byte of
zero ends the frame and the function returns the decoded payload (one byte
fewer than was written, matching the return of dst - plain - 1) together
with the unread remainder of the source.  When the bytes written so far plus
the next count byte would exceed the capacity, the decoder discards source
bytes through the next zero byte and restarts with an empty buffer, exactly
as the tail call in the C source does.  A block of count k consumes k - 1
raw data bytes and, unless k is 255, appends one implied zero byte. -/
def read_escaped_frame_go (max_plain_size : Nat) :
    Nat → List Nat → List Nat → Option (List Nat × List Nat)
  | 0, _, _ => none
  | _ + 1, _, [] => none
  | fuel + 1, acc, code :: rest =>
    if code = 0 then
      some (acc.dropLast, rest)
    else if acc.length + code > max_plain_size then
      match discard_until_zero rest with
      | none => none
      | some r => read_escaped_frame_go max_plain_size fuel [] r
    else if code - 1 ≤ rest.length then
      read_escaped_frame_go max_plain_size fuel
        (acc ++ rest.take (code - 1) ++ (if code = 255 then [] else [0]))
        (rest.drop (code - 1))
    else none

/-- read_escaped_frame on a finite source: start with an empty output buffer
and enough fuel for the whole source. -/
def read_escaped_frame (max_plain_size : Nat) (src : List Nat) :
    Option (List Nat × List Nat) :=
  read_escaped_frame_go max_plain_size src.length [] src

/-- Modelled from the spec: the byte-stuffing encoder that produces the wire
format consumed by read_escaped_frame; it lives in the upstream device, not
in this repository.  The payload is cut into blocks of at most 254 bytes of
non-zero data; a block is emitted as a count byte (data length plus one)
followed by the data; a zero payload byte ends a block and is dropped (it is
implied between blocks); a block that reaches 254 data bytes is emitted with
count byte 255 and no implied zero.  run accumulates the data bytes of the
block being built. -/
def cobs_encode_go (run : List Nat) : List Nat → List Nat
  | [] => (run.length + 1) :: run
  | b :: rest =>
    if b = 0 then
      ((run.length + 1) :: run) ++ cobs_encode_go [] rest
    else if run.length = 253 then
      (255 :: (run ++ [b])) ++ cobs_encode_go [] rest
    else
      cobs_encode_go (run ++ [b]) rest

/-- Modelled from the spec: a whole encoded frame is the block sequence
followed by the terminating zero byte. -/
def cobs_encode (payload : List Nat) : List Nat :=
  cobs_encode_go [] payload ++ [0]

/-! ## 64-bit unsigned arithmetic

The cursors, sizes and the logging header are size_t respectively uint64_t
values in the C source; all arithmetic on them is modulo 2^64. -/

/-- The modulus of 64-bit unsigned arithmetic, 2 to the 64. -/
def U64 : Nat := 18446744073709551616

/-- 64-bit unsigned addition. -/
def wadd (a b : Nat) : Nat := (a + b) % U64

/-- 64-bit unsigned subtraction: a - b wraps modulo 2^64. -/
def wsub (a b : Nat) : Nat := (a % U64 + (U64 - b % U64)) % U64

/-- Clearing the low four bits of a 64-bit value, the mask with the
complement of 15 used to round slot spans: for a below 2^64 this is a minus
a mod 16. -/
def mask_low4_clear (a : Nat) : Nat := a - a % 16

/-- Rounding up to the next multiple of 16, the value of
(n + 15) and-not-15 on values that do not wrap. -/
def round_up_16 (n : Nat) : Nat := (n + 15) - (n + 15) % 16

/-- Rounding up to the next multiple of 8, used for log-file padding. -/
def round_up_8 (n : Nat) : Nat := (n + 7) - (n + 7) % 8

/-! ## Shared-memory ring buffer, from shared_memory_ringbuffer.c -/

/-- The size of struct shared_memory_ringbuffer_slot: an 8-byte size field
padded to the 16-byte alignment of the data member, as the static_assert in
the source pins down. -/
def slot_prefix_size : Nat := 16

/-- The constant-after-init fields of the mapped segment. -/
structure ringbuffer where
  cursor_wrap : Nat
  max_slot_size : Nat
  deriving DecidableEq

/-- What a single call of shared_memory_ringbuffer_recv observes from the
shared segment while the writer runs concurrently: the first atomic load of
writer_cursor, the slot size field read at reader_cursor mod cursor_wrap,
and the second load of writer_cursor.  The two loads may differ and the slot
size may be arbitrary, because the writer can store between and during the
reads. -/
structure recv_observation where
  writer_cursor_first : Nat
  slot_size : Nat
  writer_cursor_after : Nat
  deriving DecidableEq

/-- The three possible outcomes of shared_memory_ringbuffer_recv: the 0
return with a null payload pointer, the -1 return, and a nonnegative return
carrying the slot size. -/
inductive recv_result where
  | empty
  | overrun
  | packet (size : Nat)
  deriving DecidableEq

/-- One-to-one embedding of shared_memory_ringbuffer_recv: given the fixed
segment fields, the private reader_cursor and the observed shared values, it
yields the outcome and the new reader_cursor.  The overrun test is the
size_t expression writer_cursor_after + max_slot_size - reader_cursor -
sizeof slot compared against cursor_wrap; the advance is reader_cursor plus
(sizeof slot + slot_size + 15) and-not-15, all modulo 2^64. -/
def shared_memory_ringbuffer_recv (shm : ringbuffer) (reader_cursor : Nat)
    (o : recv_observation) : recv_result × Nat :=
  if o.writer_cursor_first = reader_cursor then
    (.empty, reader_cursor)
  else if shm.cursor_wrap <
      wsub (wsub (wadd o.writer_cursor_after shm.max_slot_size) reader_cursor)
        slot_prefix_size then
    (.overrun, reader_cursor)
  else
    (.packet o.slot_size,
      wadd reader_cursor (mask_low4_clear (wadd (slot_prefix_size + o.slot_size) 15)))

/-- One-to-one embedding of shared_memory_ringbuffer_reader_has_kept_up:
lag is the size_t difference of the loaded writer_cursor and the private
reader_cursor; the check is lag + max_slot_size at or below cursor_wrap. -/
def shared_memory_ringbuffer_reader_has_kept_up (shm : ringbuffer)
    (reader_cursor writer_cursor : Nat) : Bool :=
  wadd (wsub writer_cursor reader_cursor) shm.max_slot_size ≤ shm.cursor_wrap

/-- The cursor advance of one shared_memory_ringbuffer_send of payload size
n: (sizeof slot + n + 15) and-not-15 in size_t arithmetic. -/
def send_advance (n : Nat) : Nat :=
  mask_low4_clear (wadd (slot_prefix_size + n) 15)

/-- The writer_cursor after a sequence of sends, starting from the
zero-initialized cursor of a fresh segment. -/
def writer_cursor_after_sends (sends : List Nat) : Nat :=
  sends.foldl (fun wc n => wadd wc (send_advance n)) 0

/-- The result of shm_open in the reader attach path, separating the ENOENT
errno from other failures. -/
inductive shm_open_result where
  | noent
  | failed
  | opened
  deriving DecidableEq

/-- The result of the kill(pid, 0) liveness probe, separating the errno
values the attach path distinguishes. -/
inductive kill_probe_result where
  | alive
  | eperm
  | esrch
  | other_failure
  deriving DecidableEq

/-- Everything the operating system environment decides during one call of
shared_memory_ringbuffer_reader_init, in the order the source consults it. -/
structure attach_environment where
  open_result : shm_open_result
  fstat_fails : Bool
  mmap_fails : Bool
  writer_pid : Nat
  probe : kill_probe_result
  writer_cursor : Nat
  deriving DecidableEq

/-- The outcome of reader attach: the NULL sentinel, the MAP_FAILED
sentinel, or a reader whose private cursor was initialized. -/
inductive attach_result where
  | not_available
  | os_error
  | attached (reader_cursor : Nat)
  deriving DecidableEq

/-- One-to-one embedding of shared_memory_ringbuffer_reader_init: shm_open
with ENOENT gives NULL and any other open failure MAP_FAILED; fstat or mmap
failure gives MAP_FAILED; a zero writer_pid gives NULL; a liveness probe
failing with ESRCH gives NULL and failing with anything other than EPERM and
ESRCH gives MAP_FAILED; otherwise the reader starts with reader_cursor equal
to the current writer_cursor. -/
def shared_memory_ringbuffer_reader_init (e : attach_environment) : attach_result :=
  match e.open_result with
  | .noent => .not_available
  | .failed => .os_error
  | .opened =>
    if e.fstat_fails then .os_error
    else if e.mmap_fails then .os_error
    else if e.writer_pid = 0 then .not_available
    else
      match e.probe with
      | .esrch => .not_available
      | .other_failure => .os_error
      | _ => .attached e.writer_cursor

/-! ## Logging header and file rotation, from main in cobs_to_shm.c -/

/-- One-to-one embedding of the header construction
((packet_time_microseconds / 16) << 16) | packet_size in uint64_t
arithmetic. -/
def mk_logging_header (time_microseconds packet_size : Nat) : Nat :=
  ((time_microseconds % U64 / 16) * 65536) % U64 ||| packet_size % U64

/-- The low 16 bits of a 64-bit header. -/
def header_low16 (h : Nat) : Nat := h % 65536

/-- The high 48 bits of a 64-bit header. -/
def header_high48 (h : Nat) : Nat := h / 65536

/-- The close test of the rotation logic: the packet time rounded down to
ten seconds, in microseconds, is strictly later than the time of the first
packet of the open file. -/
def should_close_file (time_file_start packet_time : Nat) : Bool :=
  time_file_start < packet_time - packet_time % 10000000

/-- The per-frame file handling of the main loop: an open file is
represented by the time of its first packet.  A frame first closes the open
file when the close test fires (reporting its path downstream), then a file
is opened for the frame when logging is enabled and none is open.  Returns
the file state after the frame and whether a path was emitted. -/
def file_rotation_step (logging_enabled : Bool) (file_start : Option Nat)
    (packet_time : Nat) : Option Nat × Bool :=
  match file_start with
  | some t0 =>
    if should_close_file t0 packet_time then
      (if logging_enabled then some packet_time else none, true)
    else
      (some t0, false)
  | none =>
    (if logging_enabled then some packet_time else none, false)

/-- On shutdown the main function closes and reports the open file if there
is one. -/
def shutdown_emits_path (file_start : Option Nat) : Bool :=
  file_start.isSome

/-- The bytes appended to the log file for one frame: fwrite of the slot
buffer over sizeof header plus the padded packet size, after the memset
zeroed the padding bytes between the packet end and the next eight-byte
boundary.  The header is serialized little-endian.  -/
def le_bytes : Nat → Nat → List Nat
  | 0, _ => []
  | k + 1, v => (v % 256) :: le_bytes k (v / 256)

/-- The on-disk record of one frame: eight header bytes, the payload, then
zero padding up to the next multiple of eight. -/
def log_record (header : Nat) (payload : List Nat) : List Nat :=
  le_bytes 8 header ++ payload
    ++ List.replicate (round_up_8 payload.length - payload.length) 0

/-- The size of the log file after appending records of the given payload
sizes: each record contributes sizeof header plus the padded packet size. -/
def log_file_length (sizes : List Nat) : Nat :=
  sizes.foldl (fun pos s => pos + (8 + round_up_8 s)) 0

/-! ## Replay ingest, from main in bin_to_shm.c -/

/-- The little-endian value of the first eight bytes of the input, with the
rest of the input, or none when fewer than eight bytes remain (a short fread
returns zero and the loop breaks). -/
def read_u64_le (input : List Nat) : Option (Nat × List Nat) :=
  if 8 ≤ input.length then
    some ((input.take 8).foldr (fun b acc => acc * 256 + b) 0, input.drop 8)
  else none

/-- The header-reading loop of bin_to_shm: do fread; while the eight bytes
are all zero.  Fuel makes the recursion structural; every iteration consumes
eight input bytes, so fuel equal to the input length always suffices. -/
def read_nonzero_header : Nat → List Nat → Option (Nat × List Nat)
  | 0, _ => none
  | fuel + 1, input =>
    match read_u64_le input with
    | none => none
    | some (h, rest) => if h = 0 then read_nonzero_header fuel rest else some (h, rest)

/-- What one iteration of the bin_to_shm main loop publishes. -/
inductive replay_step_result where
  | stopped
  | committed (slot_header : Nat) (slot_payload : List Nat) (sent_size : Nat)
      (remaining_input : List Nat)
  deriving DecidableEq

/-- One-to-one embedding of one iteration of the bin_to_shm main loop.  The
loop reads the eight-byte logging header into a local variable, masks the
packet size out of its low sixteen bits, freads the padded packet into the
packet region of the acquired slot, zeroes the padding, and sends sizeof
header plus packet size bytes.  The local header value is never stored into
the slot, so the first eight bytes of the published slot keep whatever value
the ring memory previously held there, which stale_slot_header passes in;
a fresh zero-initialized segment holds zero.  An fread of zero items (a
short read, or a padded size of zero) breaks the loop. -/
def bin_to_shm_step (stale_slot_header : Nat) (input : List Nat) :
    replay_step_result :=
  match read_nonzero_header input.length input with
  | none => .stopped
  | some (h, rest) =>
    let packet_size := h % 65536
    let packet_size_padded := round_up_8 packet_size
    if packet_size_padded = 0 then .stopped
    else if packet_size_padded ≤ rest.length then
      .committed stale_slot_header (rest.take packet_size) (8 + packet_size)
        (rest.drop packet_size_padded)
    else .stopped

/-- Modelled from the spec: what the claim says the replay variant commits
for a record with header h and payload bytes p: a slot whose first eight
bytes equal h, exactly as the serial ingest published it. -/
def replay_step_claimed (h : Nat) (p : List Nat) : replay_step_result :=
  .committed h p (8 + p.length) []

end CobsToShm

namespace CobsToShm

/-! ## Arithmetic helper lemmas -/

theorem lor_mul_pow_add : ∀ (k a s : Nat), s < 2 ^ k → (a * 2 ^ k) ||| s = a * 2 ^ k + s := by
  intro k
  induction k with
  | zero =>
    intro a s hs
    interval_cases s
    simp
  | succ k ih =>
    intro a s hs
    have hdecomp : s = Nat.bit (decide (s % 2 = 1)) (s / 2) := by
      rcases Nat.mod_two_eq_zero_or_one s with h | h <;>
        simp [Nat.bit_val, h] <;> omega
    have hmul : a * 2 ^ (k + 1) = Nat.bit false (a * 2 ^ k) := by
      simp [Nat.bit_val, Nat.pow_succ]
      ring
    have hs2 : s / 2 < 2 ^ k := by
      rw [Nat.pow_succ] at hs
      omega
    rw [hdecomp, hmul, Nat.lor_bit, ih a (s / 2) hs2]
    rcases Nat.mod_two_eq_zero_or_one s with h | h <;>
      simp [Nat.bit_val, h, Nat.pow_succ] <;> ring_nf

theorem wadd_eq {a b : Nat} (h : a + b < U64) : wadd a b = a + b :=
  Nat.mod_eq_of_lt h

theorem wsub_eq {a b : Nat} (hb : b ≤ a) (ha : a < U64) : wsub a b = a - b := by
  unfold wsub U64 at *
  omega

/-! ## C5: the logging header packs the size in the low 16 bits and the
time in 16-microsecond units in the high 48 bits -/

/-- C5 counterexample: the claim says the high 48 bits of the header times
16 recover the stamped microsecond timestamp exactly; for the timestamp 17
and payload size 2 the header stores floor(17 / 16) = 1, and 1 * 16 = 16 is
not 17, so the claim fails whenever the timestamp is not a multiple of 16. -/
theorem logging_header_high48_counterexample :
    ¬ (header_high48 (mk_logging_header 17 2) * 16 = 17) := by decide

/-- C5 amended: for every committed frame with payload size below 2^16 and
timestamp below 2^52 microseconds, the low 16 bits of the header equal the
payload size and the high 48 bits hold the timestamp divided by 16, so the
high bits times 16 give the timestamp rounded down to a multiple of 16. -/
theorem logging_header_fields (T s : Nat) (hT : T < 2 ^ 52) (hs : s < 65536) :
    header_low16 (mk_logging_header T s) = s ∧
    header_high48 (mk_logging_header T s) = T / 16 ∧
    header_high48 (mk_logging_header T s) * 16 = T - T % 16 := by
  have hU : U64 = 18446744073709551616 := rfl
  have hp : (2 : Nat) ^ 52 = 4503599627370496 := by norm_num
  have hTU : T % U64 = T := Nat.mod_eq_of_lt (by omega)
  have hsU : s % U64 = s := Nat.mod_eq_of_lt (by omega)
  have hmulU : (T % U64 / 16) * 65536 % U64 = (T / 16) * 65536 := by
    rw [hTU]
    exact Nat.mod_eq_of_lt (by omega)
  have hlor : (T / 16) * 65536 ||| s = (T / 16) * 65536 + s := by
    have := lor_mul_pow_add 16 (T / 16) s (by norm_num; omega)
    simpa using this
  unfold mk_logging_header header_low16 header_high48
  rw [hmulU, hsU, hlor]
  refine ⟨by omega, by omega, by omega⟩

/-- C5 witness: the amended theorem evaluated at timestamp 17 and size 2. -/
theorem logging_header_fields_witness :
    header_low16 (mk_logging_header 17 2) = 2 ∧
    header_high48 (mk_logging_header 17 2) = 1 ∧
    header_high48 (mk_logging_header 17 2) * 16 = 17 - 17 % 16 :=
  logging_header_fields 17 2 (by norm_num) (by norm_num)

/-! ## C7: file rotation -/

/-- C7 counterexample: the claim says an open file is closed exactly when
the ten-second bucket of the frame differs from the bucket of the first
frame of the file; with a file started at ten million microseconds (bucket
one) and a frame stamped zero (bucket zero) the buckets differ, yet the
code keeps the file open, because it only closes when the frame rounds down
to a strictly later time. -/
theorem file_rotation_claim_counterexample :
    file_rotation_step true (some 10000000) 0 = (some 10000000, false) ∧
    0 / 10000000 ≠ 10000000 / 10000000 := by decide

/-- C7 amended: a frame closes the open file, emitting its path, if and
only if the ten-second bucket of the frame is strictly later than the
bucket of the first frame of the file (a regression to an earlier bucket
does not close it); when logging is enabled a file is (re)opened lazily on
the frame, recording its time; on shutdown the open file, if any, is closed
and its path emitted. -/
theorem file_rotation_close_iff_later_bucket (t0 T : Nat) :
    (file_rotation_step true (some t0) T =
      if t0 / 10000000 < T / 10000000 then (some T, true) else (some t0, false)) ∧
    (file_rotation_step true none T = (some T, false)) ∧
    (file_rotation_step false (some t0) T =
      if t0 / 10000000 < T / 10000000 then (none, true) else (some t0, false)) ∧
    (file_rotation_step false none T = (none, false)) ∧
    shutdown_emits_path (some t0) = true ∧
    shutdown_emits_path none = false := by
  have key : should_close_file t0 T = true ↔ t0 / 10000000 < T / 10000000 := by
    simp only [should_close_file, decide_eq_true_eq]
    omega
  refine ⟨?_, by simp [file_rotation_step], ?_, by simp [file_rotation_step],
    by simp [shutdown_emits_path], by simp [shutdown_emits_path]⟩ <;>
    · simp only [file_rotation_step]
      by_cases h : t0 / 10000000 < T / 10000000
      · rw [if_pos (key.mpr h), if_pos h]
        simp
      · rw [if_neg (fun hc => h (key.mp hc)), if_neg h]

/-! ## C10: Recv leaves the reader cursor unchanged on empty and on
overrun -/

/-- C10: whenever Recv returns the empty or the overrun result, the private
reader cursor is unchanged, so the next call observes the same slot. -/
theorem recv_error_preserves_reader_cursor (shm : ringbuffer) (rc : Nat)
    (o : recv_observation)
    (h : (shared_memory_ringbuffer_recv shm rc o).1 = .empty ∨
         (shared_memory_ringbuffer_recv shm rc o).1 = .overrun) :
    (shared_memory_ringbuffer_recv shm rc o).2 = rc := by
  by_cases h1 : o.writer_cursor_first = rc
  · simp [shared_memory_ringbuffer_recv, h1]
  · by_cases h2 : shm.cursor_wrap <
        wsub (wsub (wadd o.writer_cursor_after shm.max_slot_size) rc) slot_prefix_size
    · simp [shared_memory_ringbuffer_recv, h1, h2]
    · exfalso
      simp [shared_memory_ringbuffer_recv, h1, h2] at h

/-- C10 witness: a reader whose cursor equals the loaded writer cursor gets
the empty result and keeps its cursor. -/
theorem recv_error_preserves_reader_cursor_witness :
    (shared_memory_ringbuffer_recv ⟨4194304, 65552⟩ 5 ⟨5, 0, 5⟩).2 = 5 :=
  recv_error_preserves_reader_cursor _ _ _ (Or.inl (by decide))

/-! ## C8: reader attach -/

/-- C8: attach returns the not-available sentinel exactly when the segment
does not exist, or it maps but the writer pid is zero, or the pid is
nonzero and the liveness probe reports no such process; it returns the
error sentinel exactly on the other unrecoverable failures of shm_open,
fstat, mmap or the probe; and on success the private reader cursor starts
at the current writer cursor. -/
theorem reader_init_spec (e : attach_environment) :
    (shared_memory_ringbuffer_reader_init e = .not_available ↔
      (e.open_result = .noent ∨
        (e.open_result = .opened ∧ e.fstat_fails = false ∧ e.mmap_fails = false ∧
          (e.writer_pid = 0 ∨ (e.writer_pid ≠ 0 ∧ e.probe = .esrch))))) ∧
    (shared_memory_ringbuffer_reader_init e = .os_error ↔
      (e.open_result = .failed ∨
        (e.open_result = .opened ∧
          (e.fstat_fails = true ∨ e.mmap_fails = true ∨
            (e.fstat_fails = false ∧ e.mmap_fails = false ∧ e.writer_pid ≠ 0 ∧
              e.probe = .other_failure))))) ∧
    (∀ rc, shared_memory_ringbuffer_reader_init e = .attached rc →
      rc = e.writer_cursor) := by
  obtain ⟨o, fs, mm, pid, pr, wc⟩ := e
  cases o <;> cases fs <;> cases mm <;> cases pr <;>
    by_cases hpid : pid = 0 <;>
    simp_all [shared_memory_ringbuffer_reader_init]

/-- C8 witness: a mapped segment with writer pid zero attaches as
not available. -/
theorem reader_init_spec_witness :
    shared_memory_ringbuffer_reader_init ⟨.opened, false, false, 0, .alive, 5⟩
      = .not_available :=
  (reader_init_spec ⟨.opened, false, false, 0, .alive, 5⟩).1.mpr (by decide)

/-! ## C3: the keep-up check -/

/-- C3 counterexample: with the shipped segment geometry (wrap 4194304,
maximum slot span 65552), a reader at cursor zero receives a full slot and
advances to 65552, so the last slot span is 65552; if the writer cursor
loaded by the keep-up check is 4194304 the check passes, yet the formula of
the claim, writer_cursor minus (reader_cursor minus last_slot_span) plus
max_slot_size, is 4259856, above the wrap, so the claim says the check must
fail.  The code compares against the already advanced reader cursor, not
against the start of the slot just read. -/
theorem kept_up_claim_counterexample :
    shared_memory_ringbuffer_recv ⟨4194304, 65552⟩ 0 ⟨65552, 65528, 65552⟩
      = (.packet 65528, 65552) ∧
    shared_memory_ringbuffer_reader_has_kept_up ⟨4194304, 65552⟩ 65552 4194304
      = true ∧
    ¬ (4194304 - (65552 - 65552) + 65552 ≤ 4194304) := by decide

/-- C3 amended: the keep-up check returns true if and only if the loaded
writer cursor minus the current (already advanced) reader cursor plus
max_slot_size is at most cursor_wrap; equivalently, with the claim written
on the pre-advance cursor, the bound is cursor_wrap plus the last slot
span, not cursor_wrap. -/
theorem kept_up_iff_current_cursor_lag (shm : ringbuffer) (rc wc : Nat)
    (hrc : rc ≤ wc) (hwc : wc < 2 ^ 60) (hm : shm.max_slot_size < 2 ^ 60) :
    shared_memory_ringbuffer_reader_has_kept_up shm rc wc = true ↔
      wc - rc + shm.max_slot_size ≤ shm.cursor_wrap := by
  have hU : U64 = 18446744073709551616 := rfl
  have hp : (2 : Nat) ^ 60 = 1152921504606846976 := by norm_num
  have h1 : wsub wc rc = wc - rc := wsub_eq hrc (by omega)
  have h2 : wadd (wc - rc) shm.max_slot_size = wc - rc + shm.max_slot_size :=
    wadd_eq (by omega)
  simp only [shared_memory_ringbuffer_reader_has_kept_up, h1, h2,
    decide_eq_true_eq]

/-- C3 amended witness: the amended condition evaluated at the state of the
counterexample. -/
theorem kept_up_iff_current_cursor_lag_witness :
    shared_memory_ringbuffer_reader_has_kept_up ⟨4194304, 65552⟩ 65552 4194304
      = true :=
  (kept_up_iff_current_cursor_lag ⟨4194304, 65552⟩ 65552 4194304
    (by norm_num) (by norm_num) (by norm_num)).mpr (by norm_num)

/-! ## C2: the receive path -/

/-- C2: on cursors and sizes within the working range of the writer (no
64-bit wraparound in the sums), Recv behaves exactly as the claim states:
the empty result without advancing when the first loaded writer cursor
equals the reader cursor; the overrun result without advancing when the
re-loaded writer cursor plus max_slot_size minus the reader cursor minus
the slot prefix size exceeds cursor_wrap; and otherwise the observed slot
size is returned and the reader cursor advances by the slot span rounded up
to sixteen bytes. -/
theorem recv_functional_spec (shm : ringbuffer) (rc : Nat) (o : recv_observation)
    (hm16 : slot_prefix_size ≤ shm.max_slot_size) (hm : shm.max_slot_size < 2 ^ 60)
    (hwc : o.writer_cursor_after < 2 ^ 60) (hrc : rc ≤ o.writer_cursor_after)
    (hs : o.slot_size < 2 ^ 60) :
    (o.writer_cursor_first = rc →
      shared_memory_ringbuffer_recv shm rc o = (.empty, rc)) ∧
    (o.writer_cursor_first ≠ rc →
      (shm.cursor_wrap <
          o.writer_cursor_after + shm.max_slot_size - rc - slot_prefix_size →
        shared_memory_ringbuffer_recv shm rc o = (.overrun, rc)) ∧
      (o.writer_cursor_after + shm.max_slot_size - rc - slot_prefix_size ≤
          shm.cursor_wrap →
        shared_memory_ringbuffer_recv shm rc o =
          (.packet o.slot_size,
            rc + round_up_16 (slot_prefix_size + o.slot_size)))) := by
  have hU : U64 = 18446744073709551616 := rfl
  have hp : (2 : Nat) ^ 60 = 1152921504606846976 := by norm_num
  have hpre : slot_prefix_size = 16 := rfl
  have e1 : wadd o.writer_cursor_after shm.max_slot_size
      = o.writer_cursor_after + shm.max_slot_size := wadd_eq (by omega)
  have e2 : wsub (o.writer_cursor_after + shm.max_slot_size) rc
      = o.writer_cursor_after + shm.max_slot_size - rc := wsub_eq (by omega) (by omega)
  have e3 : wsub (o.writer_cursor_after + shm.max_slot_size - rc) slot_prefix_size
      = o.writer_cursor_after + shm.max_slot_size - rc - slot_prefix_size :=
    wsub_eq (by omega) (by omega)
  have e4 : wadd (slot_prefix_size + o.slot_size) 15
      = slot_prefix_size + o.slot_size + 15 := wadd_eq (by omega)
  have e5 : mask_low4_clear (slot_prefix_size + o.slot_size + 15)
      = round_up_16 (slot_prefix_size + o.slot_size) := rfl
  have e6 : wadd rc (round_up_16 (slot_prefix_size + o.slot_size))
      = rc + round_up_16 (slot_prefix_size + o.slot_size) := by
    apply wadd_eq
    unfold round_up_16
    omega
  refine ⟨fun h => by simp [shared_memory_ringbuffer_recv, h],
    fun hne => ⟨fun hover => ?_, fun hok => ?_⟩⟩
  · simp only [shared_memory_ringbuffer_recv, if_neg hne, e1, e2, e3]
    rw [if_pos hover]
  · simp only [shared_memory_ringbuffer_recv, if_neg hne, e1, e2, e3, e4, e5, e6]
    rw [if_neg (by omega)]

/-- C2 witness: a concrete state in which the reader is one slot behind the
writer; the theorem instance yields the packet result and the sixteen-byte
rounded advance. -/
theorem recv_functional_spec_witness :
    shared_memory_ringbuffer_recv ⟨4194304, 65552⟩ 0 ⟨128, 100, 128⟩
      = (.packet 100, 128) :=
  ((recv_functional_spec ⟨4194304, 65552⟩ 0 ⟨128, 100, 128⟩
    (by norm_num [slot_prefix_size]) (by norm_num) (by norm_num) (by norm_num)
    (by norm_num)).2 (by norm_num)).2 (by norm_num [slot_prefix_size])

/-! ## C9: alignment invariants -/

theorem dvd16_send_advance (n : Nat) : 16 ∣ send_advance n := by
  unfold send_advance mask_low4_clear
  omega

theorem dvd16_wadd {a b : Nat} (ha : 16 ∣ a) (hb : 16 ∣ b) : 16 ∣ wadd a b := by
  unfold wadd U64 at *
  omega

theorem dvd16_foldl_sends : ∀ (sends : List Nat) (wc : Nat), 16 ∣ wc →
    16 ∣ sends.foldl (fun wc n => wadd wc (send_advance n)) wc := by
  intro sends
  induction sends with
  | nil => intro wc h; simpa using h
  | cons n rest ih =>
    intro wc h
    exact ih _ (dvd16_wadd h (dvd16_send_advance n))

theorem dvd8_foldl_records : ∀ (sizes : List Nat) (pos : Nat), 8 ∣ pos →
    8 ∣ sizes.foldl (fun pos s => pos + (8 + round_up_8 s)) pos := by
  intro sizes
  induction sizes with
  | nil => intro pos h; simpa using h
  | cons s rest ih =>
    intro pos h
    refine ih _ ?_
    show 8 ∣ pos + (8 + round_up_8 s)
    unfold round_up_8
    omega

theorem le_bytes_length : ∀ (k v : Nat), (le_bytes k v).length = k := by
  intro k
  induction k with
  | zero => intro v; rfl
  | succ k ih => intro v; simp [le_bytes, ih]

/-- C9: starting from the zero cursor of a fresh segment, the writer cursor
stays a multiple of sixteen after any sequence of sends, and since the wrap
is a multiple of sixteen so is the slot position within the data region,
which is itself sixteen-byte aligned; on disk every record occupies eight
header bytes plus the payload size rounded up to eight with zero padding,
so every post-record write position is a multiple of eight. -/
theorem alignment_invariants (sends sizes : List Nat) (wrap header : Nat)
    (payload : List Nat) (hwrap : 16 ∣ wrap) :
    16 ∣ writer_cursor_after_sends sends ∧
    16 ∣ (writer_cursor_after_sends sends % wrap) ∧
    8 ∣ log_file_length sizes ∧
    (log_record header payload).length = 8 + round_up_8 payload.length ∧
    (log_record header payload).drop (8 + payload.length)
      = List.replicate (round_up_8 payload.length - payload.length) 0 := by
  have h16 : 16 ∣ writer_cursor_after_sends sends :=
    dvd16_foldl_sends sends 0 (by norm_num)
  refine ⟨h16, (Nat.dvd_mod_iff hwrap).mpr h16,
    dvd8_foldl_records sizes 0 (by norm_num), ?_, ?_⟩
  · simp [log_record, le_bytes_length]
    unfold round_up_8
    omega
  · have hassoc : log_record header payload
        = (le_bytes 8 header ++ payload)
          ++ List.replicate (round_up_8 payload.length - payload.length) 0 := by
      simp [log_record]
    rw [hassoc]
    exact List.drop_left' (by simp [le_bytes_length, Nat.add_comm])

/-- C9 witness: two sends of sizes 24 and 100 leave the cursor at 192, a
multiple of sixteen. -/
theorem alignment_invariants_witness :
    16 ∣ writer_cursor_after_sends [24, 100] :=
  (alignment_invariants [24, 100] [24, 100] 4194304 65538 [171, 205]
    (by norm_num)).1

/-! ## Decoder lemmas for C1 and C6 -/

theorem go_step (cap fuel : Nat) (acc rest : List Nat) (code : Nat) :
    read_escaped_frame_go cap (fuel + 1) acc (code :: rest) =
      if code = 0 then some (acc.dropLast, rest)
      else if acc.length + code > cap then
        match discard_until_zero rest with
        | none => none
        | some r => read_escaped_frame_go cap fuel [] r
      else if code - 1 ≤ rest.length then
        read_escaped_frame_go cap fuel
          (acc ++ rest.take (code - 1) ++ (if code = 255 then [] else [0]))
          (rest.drop (code - 1))
      else none := rfl

theorem go_source_nil (cap fuel : Nat) (acc : List Nat) :
    read_escaped_frame_go cap fuel acc [] = none := by
  cases fuel <;> rfl

theorem discard_append_zero : ∀ (junk t : List Nat), (∀ b ∈ junk, b ≠ 0) →
    discard_until_zero (junk ++ 0 :: t) = some t := by
  intro junk
  induction junk with
  | nil => intro t _; rfl
  | cons b bs ih =>
    intro t h
    have hb : b ≠ 0 := h b (List.mem_cons_self b bs)
    simp only [List.cons_append, discard_until_zero, if_neg hb]
    exact ih t (fun x hx => h x (List.mem_cons_of_mem b hx))

theorem fuel_succ (fuel : Nat) (h : 1 ≤ fuel) : ∃ f, fuel = f + 1 := by
  cases fuel with
  | zero => omega
  | succ f => exact ⟨f, rfl⟩

theorem encode_go_nil (run : List Nat) :
    cobs_encode_go run [] = (run.length + 1) :: run := rfl

theorem encode_go_sep (run rest : List Nat) :
    cobs_encode_go run (0 :: rest)
      = ((run.length + 1) :: run) ++ cobs_encode_go [] rest := by
  simp [cobs_encode_go]

theorem encode_go_full (run : List Nat) (b : Nat) (rest : List Nat)
    (hb : b ≠ 0) (h253 : run.length = 253) :
    cobs_encode_go run (b :: rest)
      = (255 :: (run ++ [b])) ++ cobs_encode_go [] rest := by
  simp [cobs_encode_go, hb, h253]

theorem encode_go_push (run : List Nat) (b : Nat) (rest : List Nat)
    (hb : b ≠ 0) (h253 : run.length ≠ 253) :
    cobs_encode_go run (b :: rest) = cobs_encode_go (run ++ [b]) rest := by
  simp [cobs_encode_go, hb, h253]

/-- The decoder inverts the encoder block by block: decoding the encoding
of the remaining payload P, with the data bytes of the block under
construction in run and the bytes already decoded in acc, yields everything
concatenated, as long as the capacity admits the frame and the fuel covers
the source. -/
theorem decode_encode_go (cap : Nat) :
    ∀ (P run acc tail : List Nat) (fuel : Nat),
    run.length ≤ 253 →
    acc.length + run.length + P.length + 1 ≤ cap →
    (cobs_encode_go run P ++ (0 :: tail)).length ≤ fuel →
    read_escaped_frame_go cap fuel acc (cobs_encode_go run P ++ (0 :: tail))
      = some (acc ++ run ++ P, tail) := by
  intro P
  induction P with
  | nil =>
    intro run acc tail fuel hrun hcap hfuel
    have hfuel2 := hfuel
    simp only [encode_go_nil, List.length_append, List.length_cons] at hfuel2
    rw [encode_go_nil, List.cons_append]
    obtain ⟨f, rfl⟩ := fuel_succ fuel (by omega)
    rw [go_step]
    rw [if_neg (by omega : ¬ (run.length + 1 = 0))]
    rw [if_neg (show ¬ (acc.length + (run.length + 1) > cap) by
      simp only [List.length_nil] at hcap; omega)]
    rw [if_pos (show run.length + 1 - 1 ≤ (run ++ 0 :: tail).length by simp)]
    simp only [Nat.add_sub_cancel, List.take_left, List.drop_left]
    rw [if_neg (by omega : ¬ (run.length + 1 = 255))]
    obtain ⟨f2, rfl⟩ := fuel_succ f (by omega)
    rw [go_step, if_pos rfl]
    simp
  | cons b rest ih =>
    intro run acc tail fuel hrun hcap hfuel
    have hcap2 : acc.length + run.length + rest.length + 2 ≤ cap := by
      simp only [List.length_cons] at hcap; omega
    by_cases hb : b = 0
    · subst hb
      have hfuel2 := hfuel
      simp only [encode_go_sep, List.length_append, List.length_cons] at hfuel2
      rw [encode_go_sep, List.append_assoc, List.cons_append]
      obtain ⟨f, rfl⟩ := fuel_succ fuel (by omega)
      rw [go_step]
      rw [if_neg (by omega : ¬ (run.length + 1 = 0))]
      rw [if_neg (show ¬ (acc.length + (run.length + 1) > cap) by omega)]
      rw [if_pos (show run.length + 1 - 1
        ≤ (run ++ (cobs_encode_go [] rest ++ 0 :: tail)).length by simp)]
      simp only [Nat.add_sub_cancel, List.take_left, List.drop_left]
      rw [if_neg (by omega : ¬ (run.length + 1 = 255))]
      rw [ih [] (acc ++ run ++ [0]) tail f (by simp)
        (by simp only [List.length_append, List.length_nil, List.length_cons]
            omega)
        (by simp only [List.length_append, List.length_cons]; omega)]
      simp
    · by_cases h253 : run.length = 253
      · have hfuel2 := hfuel
        simp only [encode_go_full run b rest hb h253, List.length_append,
          List.length_cons] at hfuel2
        rw [encode_go_full run b rest hb h253, List.append_assoc,
          List.cons_append]
        obtain ⟨f, rfl⟩ := fuel_succ fuel (by omega)
        rw [go_step]
        rw [if_neg (by norm_num : ¬ ((255 : Nat) = 0))]
        rw [if_neg (show ¬ (acc.length + 255 > cap) by omega)]
        rw [if_pos (show (255 : Nat) - 1
          ≤ ((run ++ [b]) ++ (cobs_encode_go [] rest ++ 0 :: tail)).length by
            simp only [List.length_append, List.length_cons, List.length_nil]
            omega)]
        rw [List.take_left' (show (run ++ [b]).length = 255 - 1 by
          simp [h253])]
        rw [List.drop_left' (show (run ++ [b]).length = 255 - 1 by
          simp [h253])]
        rw [if_pos rfl]
        rw [ih [] (acc ++ (run ++ [b]) ++ []) tail f (by simp)
          (by simp only [List.length_append, List.length_nil, List.length_cons]
              omega)
          (by simp only [List.length_append, List.length_cons]; omega)]
        simp
      · have hfuel2 := hfuel
        rw [encode_go_push run b rest hb h253] at hfuel2 ⊢
        rw [ih (run ++ [b]) acc tail fuel
          (by simp only [List.length_append, List.length_cons,
            List.length_nil]; omega)
          (by simp only [List.length_append, List.length_cons,
            List.length_nil]; omega)
          hfuel2]
        simp

/-! ## C1: the decoder against the documented encoder -/

/-- C1 amended: the decoder is a right inverse of the byte-stuffing encoder
for every payload of at most 65527 bytes, where the encoder closes a frame
that ends in a maximal 254-byte block with an empty block (count byte one)
before the terminating zero.  At 65528 bytes, the capacity of the decoder
buffer, the final block trips the length guard and the frame is discarded
instead. -/
theorem cobs_decode_encode_right_inverse (P tail : List Nat)
    (h : P.length ≤ 65527) :
    read_escaped_frame 65528 (cobs_encode P ++ tail) = some (P, tail) := by
  have heq : cobs_encode P ++ tail = cobs_encode_go [] P ++ (0 :: tail) := by
    simp [cobs_encode]
  unfold read_escaped_frame
  rw [heq]
  rw [decode_encode_go 65528 P [] [] tail _ (by simp) (by simp; omega)
    (le_refl _)]
  simp

/-- C1 witness: the amended round trip evaluated on a payload containing an
interior zero, with trailing source bytes left unread. -/
theorem cobs_decode_encode_right_inverse_witness :
    read_escaped_frame 65528 (cobs_encode [104, 0, 105] ++ [7])
      = some ([104, 0, 105], [7]) :=
  cobs_decode_encode_right_inverse [104, 0, 105] [7] (by norm_num)

/-! ## The overlong-frame behavior at exactly the capacity -/

theorem encode_replicate_one : ∀ (m r : Nat), r ≤ 253 →
    cobs_encode_go (List.replicate r 1) (List.replicate m 1) =
      if r + m ≤ 253 then (r + m + 1) :: List.replicate (r + m) 1
      else 255 :: List.replicate 254 1
        ++ cobs_encode_go [] (List.replicate (r + m - 254) 1) := by
  intro m
  induction m with
  | zero =>
    intro r hr
    rw [if_pos (by omega)]
    rw [show List.replicate 0 1 = ([] : List Nat) from rfl, encode_go_nil]
    simp
  | succ m ih =>
    intro r hr
    rw [List.replicate_succ]
    by_cases h253 : r = 253
    · subst h253
      have hlen253 : (List.replicate 253 1 : List Nat).length = 253 := by
        simp only [List.length_replicate]
      rw [encode_go_full (List.replicate 253 1) 1 (List.replicate m 1)
        (by norm_num) hlen253]
      rw [show List.replicate 253 1 ++ [1] = List.replicate 254 1 from
        (List.replicate_succ' 253 1).symm]
      rw [if_neg (by omega)]
      have harith : 253 + (m + 1) - 254 = m := by omega
      rw [harith]
    · have hlenr : (List.replicate r 1 : List Nat).length ≠ 253 := by
        simp only [List.length_replicate]; omega
      rw [encode_go_push (List.replicate r 1) 1 (List.replicate m 1)
        (by norm_num) hlenr]
      rw [show List.replicate r 1 ++ [1] = List.replicate (r + 1) 1 from
        (List.replicate_succ' r 1).symm]
      rw [ih (r + 1) (by omega)]
      have h1 : r + 1 + m = r + (m + 1) := by omega
      rw [h1]

theorem encode_replicate_nonzero : ∀ (m : Nat) (run : List Nat),
    (∀ x ∈ run, x ≠ 0) →
    ∀ y ∈ cobs_encode_go run (List.replicate m 1), y ≠ 0 := by
  intro m
  induction m with
  | zero =>
    intro run hrun y hy
    rw [show List.replicate 0 1 = ([] : List Nat) from rfl,
      encode_go_nil] at hy
    rcases List.mem_cons.mp hy with h | h
    · omega
    · exact hrun y h
  | succ m ih =>
    intro run hrun y hy
    rw [List.replicate_succ] at hy
    by_cases h253 : run.length = 253
    · rw [encode_go_full run 1 _ (by norm_num) h253] at hy
      rcases List.mem_append.mp hy with h | h
      · rcases List.mem_cons.mp h with h | h
        · omega
        · rcases List.mem_append.mp h with h | h
          · exact hrun y h
          · simp at h; omega
      · exact ih [] (by simp) y h
    · rw [encode_go_push run 1 _ (by norm_num) h253] at hy
      refine ih (run ++ [1]) ?_ y hy
      intro x hx
      rcases List.mem_append.mp hx with h | h
      · exact hrun x h
      · simp at h; omega

/-- Decoding the encoding of a payload of 65528 identical nonzero bytes
against the capacity 65528 always trips the length guard before the frame
ends; the decoder discards through the frame terminator and, with nothing
after it, reports failure. -/
theorem decode_overlong_replicate :
    ∀ (m a fuel : Nat), a + m = 65528 →
    (cobs_encode_go [] (List.replicate m 1) ++ [0]).length ≤ fuel →
    read_escaped_frame_go 65528 fuel (List.replicate a 1)
      (cobs_encode_go [] (List.replicate m 1) ++ [0]) = none := by
  intro m
  induction m using Nat.strong_induction_on with
  | _ m ih =>
    intro a fuel hsum hfuel
    have henc := encode_replicate_one m 0 (by omega)
    rw [show List.replicate 0 1 = ([] : List Nat) from rfl] at henc
    rw [Nat.zero_add] at henc
    by_cases hm : m ≤ 253
    · rw [if_pos hm] at henc
      have hfuel2 := hfuel
      rw [henc] at hfuel2 ⊢
      simp only [List.length_append, List.length_cons, List.length_replicate,
        List.length_nil] at hfuel2
      rw [List.cons_append]
      obtain ⟨f, rfl⟩ := fuel_succ fuel (by omega)
      rw [go_step]
      rw [if_neg (by omega : ¬ (m + 1 = 0))]
      rw [if_pos (show (List.replicate a 1).length + (m + 1) > 65528 by
        simp only [List.length_replicate]; omega)]
      rw [show (List.replicate m 1 ++ [0] : List Nat)
          = List.replicate m 1 ++ 0 :: [] from rfl]
      rw [discard_append_zero _ _ (by
        intro x hx
        have := List.eq_of_mem_replicate hx
        omega)]
      exact go_source_nil _ _ _
    · rw [if_neg hm] at henc
      have hfuel2 := hfuel
      rw [henc] at hfuel2 ⊢
      simp only [List.length_append, List.length_cons, List.length_replicate,
        List.length_nil] at hfuel2
      rw [List.cons_append, List.cons_append, List.append_assoc]
      obtain ⟨f, rfl⟩ := fuel_succ fuel (by omega)
      rw [go_step]
      rw [if_neg (by norm_num : ¬ ((255 : Nat) = 0))]
      by_cases ha : (List.replicate a 1).length + 255 > 65528
      · rw [if_pos ha]
        have hnz : ∀ x ∈ List.replicate 254 1
            ++ cobs_encode_go [] (List.replicate (m - 254) 1), x ≠ 0 := by
          intro x hx
          rcases List.mem_append.mp hx with h | h
          · have := List.eq_of_mem_replicate h; omega
          · exact encode_replicate_nonzero (m - 254) [] (by simp) x h
        rw [show (cobs_encode_go [] (List.replicate (m - 254) 1)
              ++ [0] : List Nat)
            = cobs_encode_go [] (List.replicate (m - 254) 1) ++ 0 :: []
          from rfl]
        rw [← List.append_assoc]
        rw [discard_append_zero _ _ hnz]
        exact go_source_nil _ _ _
      · rw [if_neg ha]
        have hcond : (255 : Nat) - 1 ≤ (List.replicate 254 1
            ++ (cobs_encode_go [] (List.replicate (m - 254) 1)
              ++ [0])).length := by
          simp only [List.length_append, List.length_cons,
            List.length_replicate, List.length_nil]
          omega
        rw [if_pos hcond]
        have hlen254 : (List.replicate 254 1 : List Nat).length = 255 - 1 := by
          simp only [List.length_replicate]
        rw [List.take_left' hlen254]
        rw [List.drop_left' hlen254]
        rw [if_pos rfl]
        rw [show List.replicate a 1 ++ List.replicate 254 1 ++ ([] : List Nat)
            = List.replicate (a + 254) 1 by
          rw [List.append_nil, ← List.replicate_add]]
        exact ih (m - 254) (by omega) (a + 254) f (by omega)
          (by simp only [List.length_append, List.length_cons,
            List.length_replicate, List.length_nil]; omega)

set_option maxRecDepth 40000 in
/-- C1 counterexample: first, the wire form the claim gives for a 254-byte
run, the count byte 255 followed by the 254 data bytes and the terminating
zero, decodes to only the first 253 data bytes, not all 254, because the
decoder always discounts one trailing byte at frame end; second, the
payload of 65528 identical nonzero bytes, inside the claimed bound, fails
to round trip: decoding its encoding trips the length guard and returns
failure. -/
theorem cobs_decode_claim_counterexample :
    read_escaped_frame 65528 (255 :: (List.replicate 254 1 ++ [0]))
      = some (List.replicate 253 1, []) ∧
    List.replicate 253 1 ≠ List.replicate 254 1 ∧
    read_escaped_frame 65528 (cobs_encode (List.replicate 65528 1)) = none := by
  refine ⟨by decide, by decide, ?_⟩
  unfold read_escaped_frame cobs_encode
  exact decode_overlong_replicate 65528 0 _ (by norm_num) (le_refl _)

/-! ## C6: resynchronization on an overlong frame -/

/-- C6: whenever the bytes decoded so far plus the next count byte would
exceed the capacity, the decoder discards source bytes through the next
zero byte and restarts on the following bytes as a fresh frame: if a
well-formed encoded frame follows the junk, its payload is returned,
instead of any failure. -/
theorem read_escaped_frame_resync (cap fuel : Nat)
    (acc junk payload tail : List Nat) (code : Nat)
    (hcode : code ≠ 0) (hover : cap < acc.length + code)
    (hjunk : ∀ b ∈ junk, b ≠ 0) (hcap : payload.length + 1 ≤ cap)
    (hfuel : (code :: (junk ++ (0 :: (cobs_encode payload ++ tail)))).length
      ≤ fuel) :
    read_escaped_frame_go cap fuel acc
      (code :: (junk ++ (0 :: (cobs_encode payload ++ tail))))
      = some (payload, tail) := by
  have heq : cobs_encode payload ++ tail
      = cobs_encode_go [] payload ++ (0 :: tail) := by
    simp [cobs_encode]
  have hfuel2 := hfuel
  simp only [List.length_cons, List.length_append] at hfuel2
  have hlen2 : (cobs_encode payload).length
      = (cobs_encode_go [] payload).length + 1 := by
    simp [cobs_encode]
  obtain ⟨f, rfl⟩ := fuel_succ fuel (by omega)
  rw [go_step, if_neg hcode, if_pos (by omega)]
  rw [discard_append_zero _ _ hjunk]
  rw [heq]
  show read_escaped_frame_go cap f []
      (cobs_encode_go [] payload ++ 0 :: tail) = some (payload, tail)
  rw [decode_encode_go cap payload [] [] tail f (by simp) (by simp; omega)
    (by simp only [List.length_append, List.length_cons]; omega)]
  simp

/-- C6 witness: with capacity four and three bytes already decoded, a count
byte of two trips the guard; the decoder discards the junk byte five and
the zero, then decodes the following frame to the one-byte payload. -/
theorem read_escaped_frame_resync_witness :
    read_escaped_frame_go 4 20 [9, 9, 9]
      (2 :: ([5] ++ (0 :: (cobs_encode [1] ++ []))))
      = some ([1], []) :=
  read_escaped_frame_resync 4 20 [9, 9, 9] [5] [1] [] 2 (by norm_num)
    (by norm_num) (by decide) (by norm_num) (by decide)
/-! ## C4: the replay variant does not preserve the frame header -/

/-- C4: a log record with header 65538 (timestamp sixteen microseconds,
size two) and payload bytes 171, 205 is read by bin_to_shm, but the
committed slot carries the stale ring memory (zero on a fresh segment) in
its first eight bytes instead of the record header, because the loop reads
the header into a local variable and never stores it into the slot; the
claim requires the slot header to equal the record header 65538. -/
theorem bin_to_shm_header_not_copied :
    bin_to_shm_step 0 (log_record 65538 [171, 205])
      = .committed 0 [171, 205] 10 [] ∧
    replay_step_claimed 65538 [171, 205]
      = .committed 65538 [171, 205] 10 [] ∧
    (0 : Nat) ≠ 65538 := by decide

end CobsToShm
